import Mathlib

/-!
Verification of the wafel graphics module (src/ext_modules/graphics/init.cpp)
against its specification. The file shallowly embeds the address rebaser
(from_base, segmented_to_virtual), the surface classifier, the mario-path
construction inside the render function, and the display-list interpreter
(interpret_display_list), and proves the spec claims about them.
-/

namespace Wafel

/-- A 3-component vector. Coordinate values are modeled as integers: every
claim proved below only moves whole vectors around or compares them for
equality; none performs arithmetic on the components, so the exact scalar
type (f32 in the source) is irrelevant to the claims. -/
structure Vec3 where
  x : Int
  y : Int
  z : Int
deriving DecidableEq

/-! ### Segment translation: segmented_to_virtual (init.cpp lines 66-82) -/

/-- One entry of the 32-slot segment table (sSegmentTable in the source):
srcStart/srcEnd bound the half-open source range, dstStart is the
destination base. Pointers are modeled as natural numbers (the source
compares and subtracts raw addresses). -/
structure SegmentDescriptor where
  srcStart : Nat
  srcEnd : Nat
  dstStart : Nat
deriving DecidableEq

/-- The containment test of the scan loop: srcStart <= addr < srcEnd
(init.cpp line 70). -/
def segContains (d : SegmentDescriptor) (addr : Nat) : Bool :=
  decide (d.srcStart ≤ addr) && decide (addr < d.srcEnd)

/-- The scan loop of segmented_to_virtual (init.cpp lines 68-77). The
accumulator result starts as the null pointer, modeled by 0. When a
descriptor contains addr while result is already nonzero the program
prints a warning and terminates, modeled by none; otherwise the
translated address addr - srcStart + dstStart replaces result. -/
def segLoop (addr : Nat) : List SegmentDescriptor → Nat → Option Nat
  | [], result => some result
  | d :: ds, result =>
    if segContains d addr then
      if result ≠ 0 then none
      else segLoop addr ds (addr - d.srcStart + d.dstStart)
    else segLoop addr ds result

/-- segmented_to_virtual (init.cpp lines 66-82): run the scan loop with a
null accumulator; if the loop finishes with result still null, the input
address is returned unchanged (lines 78-80). none models the process
abort on a detected double match. -/
def segmented_to_virtual (table : List SegmentDescriptor) (addr : Nat) : Option Nat :=
  (segLoop addr table 0).map (fun r => if r = 0 then addr else r)

/-- Number of descriptors of the table whose source range contains addr. -/
def countMatches (table : List SegmentDescriptor) (addr : Nat) : Nat :=
  (table.filter (fun d => segContains d addr)).length

/-! ### Image rebasing: GameState::from_base (init.cpp lines 109-118) -/

/-- GameState::from_base (init.cpp lines 109-118). Addresses are modeled
as integers (byte addresses); size stands for sizeof(SM64State), so that
the source condition addr1 < base1 || addr1 >= (char *)(base + 1)
becomes addr < base or base + size <= addr. The function is total: it
has no error path. -/
def from_base (size base data addr : Int) : Int :=
  if addr < base ∨ base + size ≤ addr then addr else addr - base + data

/-! ### Surface classification (init.cpp lines 344-367) -/

inductive SurfaceType
  | FLOOR
  | CEILING
  | WALL_X_PROJ
  | WALL_Z_PROJ
deriving DecidableEq

/-- A surface normal. The source stores f32 components compared against
the double literals 0.01, -0.01, 0.707 and -0.707; the components are
modeled as rationals and the literals by their exact rational values.
Every concrete normal appearing in the claims is either exactly
representable or far enough from the thresholds that the float/rational
distinction cannot change the comparison results. -/
structure SurfaceNormal where
  x : ℚ
  y : ℚ
  z : ℚ

/-- The classification chain of the render function (init.cpp lines
348-356): normal.y > 0.01 gives FLOOR; else normal.y < -0.01 gives
CEILING; else normal.x < -0.707 || normal.x > 0.707 gives WALL_X_PROJ;
else WALL_Z_PROJ. -/
def classify_surface (n : SurfaceNormal) : SurfaceType :=
  if n.y > 0.01 then SurfaceType.FLOOR
  else if n.y < -0.01 then SurfaceType.CEILING
  else if n.x < -0.707 ∨ n.x > 0.707 then SurfaceType.WALL_X_PROJ
  else SurfaceType.WALL_Z_PROJ

/-! ### Mario path construction (init.cpp lines 380-409) -/

/-- One entry of the quarter-step log (QStepsInfo::steps in the source):
an intended position and a result position. -/
structure QStep where
  intendedPos : Vec3
  resultPos : Vec3
deriving DecidableEq

/-- The per-snapshot data the mario-path loop reads: the frame id (the
only field GameState::operator== compares, init.cpp lines 120-122), the
mario position read through from_base, and the quarter-step log
gQStepsInfo of the snapshot (numSteps entries of steps, modeled as a
list in log order). -/
structure PathState where
  frame : Int
  marioPos : Vec3
  qsteps : List QStep
deriving DecidableEq

/-- ObjectPathNode (renderer.hpp): a path position plus its quarter-step
list. -/
structure ObjectPathNode where
  pos : Vec3
  quarter_steps : List QStep
deriving DecidableEq

/-- current_index (init.cpp lines 380-382): std::distance of
std::find over path_states, where GameState equality compares frames.
List.findIdx returns the list length when nothing matches, exactly as
std::find returns the end iterator. -/
def current_index (states : List PathState) (cur : PathState) : Nat :=
  states.findIdx (fun s => s.frame == cur.frame)

/-- The node pushed for one snapshot (init.cpp lines 401-404): the mario
position and an empty quarter-step vector. -/
def plainNode (st : PathState) : ObjectPathNode :=
  ⟨st.marioPos, []⟩

/-- Appending quarter steps to the last node of the path, modeling the
mario_path.back().quarter_steps.push_back loop (init.cpp lines 393-398),
which appends the log entries in order. -/
def appendQSteps (qs : List QStep) : List ObjectPathNode → List ObjectPathNode
  | [] => []
  | [nd] => [⟨nd.pos, nd.quarter_steps ++ qs⟩]
  | nd :: nd2 :: rest => nd :: appendQSteps qs (nd2 :: rest)

/-- The diagnostic print of init.cpp lines 390-392: when the log holds
more than 4 entries its length is printed to stdout. Modeled as the list
of printed numbers; execution continues normally either way. -/
def qstepDiag (st : PathState) : List Nat :=
  if 4 < st.qsteps.length then [st.qsteps.length] else []

/-- The mario-path loop of the render function (init.cpp lines 384-405).
For each snapshot, if the path is nonempty and its size equals
current_index + 1, the quarter-step log of the snapshot being processed
is appended to the last node (and the over-length diagnostic possibly
printed); then a fresh node for the snapshot is pushed. Returns the
final path together with the diagnostics printed. -/
def build_mario_path (ci : Nat) :
    List PathState → List ObjectPathNode → List Nat → List ObjectPathNode × List Nat
  | [], path, logs => (path, logs)
  | st :: rest, path, logs =>
    if path ≠ [] ∧ path.length = ci + 1 then
      build_mario_path ci rest (appendQSteps st.qsteps path ++ [plainNode st]) (logs ++ qstepDiag st)
    else
      build_mario_path ci rest (path ++ [plainNode st]) logs

/-! ### Display-list interpreter: interpret_display_list (init.cpp 574-705) -/

/-- The ambient context of one interpretation: the rebasing triple of the
GameState (size = sizeof(SM64State), base, data) and two read-only views
of snapshot memory. mem a is the 32-bit word stored at byte address a
(every access in the source is a 4-byte aligned u32 read); vtx b i is
the decoded object-space position vec3(v[i].v.ob[0..2]) of the i-th
entry of the sm64::Vtx array at byte address b. Vtx's layout lives in
libsm64, outside this repository, so the decode is abstracted as a
context function; no claim depends on it. -/
structure Ctx where
  size : Int
  base : Int
  data : Int
  mem : Int → Nat
  vtx : Int → Nat → Vec3

/-- The global vertex cache, vector<vec3> loaded_vertices(32) (init.cpp
line 561). sz models vector::size(); store models the backing storage.
The source only ever touches the cache through operator[], which in the
source's standard-library build performs unchecked access into the
backing storage (the vector is constructed with 32 elements, so its
capacity is at least 32 and every index the interpreter uses stays below
31); loaded_vertices.clear() resets the size to 0 but neither frees nor
overwrites the backing storage. -/
structure VCache where
  sz : Nat
  store : Nat → Vec3

/-- The mutable state threaded through one interpretation: the vertex
cache, the line-loop draws issued so far (case 0xBF), and two ghost logs
instrumenting the proof: writes records every cache slot index written
by a vertex load, reads every slot index read by a triangle draw. -/
structure IState where
  loaded_vertices : VCache
  draws : List (Vec3 × Vec3 × Vec3)
  writes : List Nat
  reads : List Nat

/-- The two fatal errors of the interpreter: case 0x01 (gSPMatrix,
init.cpp lines 585-587) and an unrecognized 0x06 encoding
(gSPDisplayList, lines 634-637). Both print to stderr and terminate the
process. -/
inductive AbortReason
  | gSPMatrix
  | gSPDisplayList
deriving DecidableEq

/-- Outcome of a (fuel-bounded) interpretation: normal return at a 0xB8
command, process abort, or fuel exhaustion (the source loop can diverge
on cyclic input; timeout is the embedding's artifact for that). Each
outcome carries the state reached. -/
inductive DLResult
  | ok (s : IState)
  | abort (r : AbortReason) (s : IState)
  | timeout (s : IState)

def resState : DLResult → IState
  | .ok s => s
  | .abort _ s => s
  | .timeout s => s

/-- Pointwise update of the cache backing storage. -/
def writeSlot (store : Nat → Vec3) (j : Nat) (v : Vec3) : Nat → Vec3 :=
  fun k => if k = j then v else store k

/-- The copy loop of case 0x04 (init.cpp lines 621-623): for i < n the
slot v0 + i receives the decoded position of source vertex i. -/
def loadVerts (c : Ctx) (vbase : Int) (v0 : Nat) : Nat → (Nat → Vec3) → Nat → Vec3
  | 0, store => store
  | m + 1, store => writeSlot (loadVerts c vbase v0 m store) (v0 + m) (c.vtx vbase m)

/-- Vertex count n = ((w0 >> 20) & 0xF) + 1 (init.cpp line 616). -/
def vertexCount (w0 : Nat) : Nat :=
  (w0 / 2 ^ 20) % 16 + 1

/-- Base slot v0 = (w0 >> 16) & 0xF (init.cpp line 617). -/
def vertexBase (w0 : Nat) : Nat :=
  (w0 / 2 ^ 16) % 16

/-- Case 0x04 acting on the vertex cache (init.cpp lines 615-625):
loaded_vertices.clear() (size := 0, storage untouched), then the copy
loop writes slots v0 .. v0 + n - 1 of the backing storage through
operator[]; the operand word is rebased as a Vtx pointer first. -/
def execVertex (c : Ctx) (w0 w1 : Nat) (vc : VCache) : VCache :=
  { sz := 0
    store := loadVerts c (from_base c.size c.base c.data (Int.ofNat w1))
      (vertexBase w0) (vertexCount w0) vc.store }

/-- Full effect of a 0x04 command on the interpreter state, including the
ghost write log. -/
def stepVertex (c : Ctx) (w0 w1 : Nat) (s : IState) : IState :=
  { s with
    loaded_vertices := execVertex c w0 w1 s.loaded_vertices
    writes := s.writes ++ (List.range (vertexCount w0)).map (fun i => vertexBase w0 + i) }

/-- First triangle slot index ((w1 >> 16) & 0xFF) / 10 (init.cpp 657). -/
def triIndex0 (w1 : Nat) : Nat :=
  (w1 / 2 ^ 16 % 256) / 10

/-- Second triangle slot index ((w1 >> 8) & 0xFF) / 10 (init.cpp 658). -/
def triIndex1 (w1 : Nat) : Nat :=
  (w1 / 2 ^ 8 % 256) / 10

/-- Third triangle slot index ((w1 >> 0) & 0xFF) / 10 (init.cpp 659). -/
def triIndex2 (w1 : Nat) : Nat :=
  (w1 % 256) / 10

/-- Case 0xBF (init.cpp lines 656-668): read three cache slots and issue
one closed line-loop draw through the three positions; the ghost read
log records the slots read. -/
def stepTriangle (w1 : Nat) (s : IState) : IState :=
  { s with
    draws := s.draws ++ [(s.loaded_vertices.store (triIndex0 w1),
      s.loaded_vertices.store (triIndex1 w1),
      s.loaded_vertices.store (triIndex2 w1))]
    reads := s.reads ++ [triIndex0 w1, triIndex1 w1, triIndex2 w1] }

/-- interpret_display_list (init.cpp lines 574-705). dl is the byte
address of the cursor; each iteration reads w0 = dl[0], w1 = dl[1] and
dispatches on cmd = w0 >> 24. Case 0x01 aborts. Case 0x04 loads
vertices. Case 0x06 with w0 == 0x06000000 recursively interprets the
rebased operand and resumes after the command; with w0 == 0x06010000 it
sets dl = new_dl - 2 (u32 units, hence - 8 bytes) so that the loop's
dl += 2 lands exactly on the rebased target; any other w0 aborts. Case
0xB8 returns. Case 0xBF draws a triangle. Cases 0x03, 0xB6, 0xB7, 0xB9,
0xBB, 0xE6, 0xE7, 0xE8, 0xF2, 0xF3, 0xF5, 0xFB, 0xFC, 0xFD and the
default case are all no-ops that fall through to the cursor advance.
fuel bounds the number of commands processed, standing in for the
source's unbounded loop and recursion. -/
def interpret_display_list (c : Ctx) : Nat → Int → IState → DLResult
  | 0, _, s => DLResult.timeout s
  | fuel + 1, dl, s =>
    if c.mem dl % 2 ^ 32 / 2 ^ 24 = 0x01 then
      DLResult.abort AbortReason.gSPMatrix s
    else if c.mem dl % 2 ^ 32 / 2 ^ 24 = 0x04 then
      interpret_display_list c fuel (dl + 8)
        (stepVertex c (c.mem dl % 2 ^ 32) (c.mem (dl + 4) % 2 ^ 32) s)
    else if c.mem dl % 2 ^ 32 / 2 ^ 24 = 0x06 then
      if c.mem dl % 2 ^ 32 = 0x06000000 then
        match interpret_display_list c fuel
            (from_base c.size c.base c.data (Int.ofNat (c.mem (dl + 4) % 2 ^ 32))) s with
        | DLResult.ok s1 => interpret_display_list c fuel (dl + 8) s1
        | r => r
      else if c.mem dl % 2 ^ 32 = 0x06010000 then
        interpret_display_list c fuel
          (from_base c.size c.base c.data (Int.ofNat (c.mem (dl + 4) % 2 ^ 32)) - 8 + 8) s
      else
        DLResult.abort AbortReason.gSPDisplayList s
    else if c.mem dl % 2 ^ 32 / 2 ^ 24 = 0xB8 then
      DLResult.ok s
    else if c.mem dl % 2 ^ 32 / 2 ^ 24 = 0xBF then
      interpret_display_list c fuel (dl + 8) (stepTriangle (c.mem (dl + 4) % 2 ^ 32) s)
    else
      interpret_display_list c fuel (dl + 8) s

/-! ### Concrete inputs used by witnesses and counterexamples -/

/-- The all-zero cache as the vector loaded_vertices(32) starts. -/
def vcZero : VCache :=
  ⟨32, fun _ => ⟨0, 0, 0⟩⟩

/-- An initial interpreter state with empty draw list and ghost logs. -/
def st0 : IState :=
  ⟨vcZero, [], [], []⟩

/-- A context whose memory holds 0xB8000000 (end of list) everywhere. -/
def ctxEnd : Ctx :=
  ⟨0, 0, 0, fun _ => 0xB8000000, fun _ i => ⟨Int.ofNat i, 0, 0⟩⟩

/-- A context whose first command has high byte 0x01 with arbitrary
other bits. -/
def ctxMatrix : Ctx :=
  { ctxEnd with mem := fun _ => 0x01ABCDEF }

/-- A context with a sub-list call at address 0 targeting address 16,
where an end-of-list command sits; the continuation at address 8 also
ends. -/
def ctxCall : Ctx :=
  { ctxEnd with mem := fun a => if a = 0 then 0x06000000 else if a = 4 then 16 else 0xB8000000 }

/-- A context with a tail branch at address 0 targeting address 16. -/
def ctxBranch : Ctx :=
  { ctxEnd with mem := fun a => if a = 0 then 0x06010000 else if a = 4 then 16 else 0xB8000000 }

/-- A context whose first command has high byte 0x06 but an encoding
that is neither a call nor the branch. -/
def ctxBad : Ctx :=
  { ctxEnd with mem := fun a => if a = 0 then 0x06020000 else 0 }

/-- A context with a vertex load (n = 2, v0 = 0) at address 0 followed
by an end of list. -/
def ctxVertex : Ctx :=
  { ctxEnd with mem := fun a => if a = 0 then 0x04100000 else if a = 4 then 64 else 0xB8000000 }

/-- A full 32-entry segment table whose first two descriptors both
contain address 0 and whose first descriptor translates 0 to the null
address. -/
def overlapTable : List SegmentDescriptor :=
  ⟨0, 16, 0⟩ :: ⟨0, 16, 256⟩ :: List.replicate 30 ⟨0, 0, 0⟩

/-- A full 32-entry segment table with exactly one descriptor containing
address 12, translating it to 102. -/
def singleTable : List SegmentDescriptor :=
  ⟨10, 20, 100⟩ :: List.replicate 31 ⟨0, 0, 0⟩

/-- Example history snapshot with frame 10 and a one-entry q-step log. -/
def exS0 : PathState :=
  ⟨10, ⟨0, 0, 0⟩, [⟨⟨1, 0, 0⟩, ⟨2, 0, 0⟩⟩]⟩

/-- Example history snapshot with frame 20 and a one-entry q-step log. -/
def exS1 : PathState :=
  ⟨20, ⟨5, 0, 0⟩, [⟨⟨3, 0, 0⟩, ⟨4, 0, 0⟩⟩]⟩

/-- Example history snapshot with frame 30 and a one-entry q-step log. -/
def exS2 : PathState :=
  ⟨30, ⟨9, 0, 0⟩, [⟨⟨5, 0, 0⟩, ⟨6, 0, 0⟩⟩]⟩

/-- Example history list with frames [10, 20, 30]. -/
def exStates : List PathState :=
  [exS0, exS1, exS2]

/-- Example current snapshot, sharing frame 20 with exS1. -/
def exCur : PathState :=
  ⟨20, ⟨5, 0, 0⟩, []⟩

/-! ### Theorems -/

/-- C2: GameState::from_base maps a pointer lying strictly inside the
reference image span [base, base + size) to the same structural offset
in the target image (so result - data = v - base), returns every
pointer outside that span unchanged, and is a total function with no
error path. -/
theorem C2_rebase_pointer (size base data v : Int) :
    (base ≤ v → v < base + size →
      from_base size base data v = v - base + data ∧
      from_base size base data v - data = v - base) ∧
    ((v < base ∨ base + size ≤ v) → from_base size base data v = v) := by
  constructor
  · intro h1 h2
    have hn : ¬(v < base ∨ base + size ≤ v) := by omega
    refine ⟨?_, ?_⟩ <;> simp [from_base, hn]
  · intro h
    simp [from_base, h]

/-- Witness for C2: with size 100, base 1000, data 5000 the inside
pointer 1010 is rebased to offset 10 of the target image and the
outside pointer 50 is returned unchanged. -/
theorem C2_rebase_pointer_witness :
    from_base 100 1000 5000 1010 = 1010 - 1000 + 5000 ∧ from_base 100 1000 5000 50 = 50 :=
  ⟨((C2_rebase_pointer 100 1000 5000 1010).1 (by decide) (by decide)).1,
   (C2_rebase_pointer 100 1000 5000 50).2 (Or.inl (by decide))⟩

/-- C6: the surface classifier realizes the strict-threshold chain —
FLOOR iff normal.y > 0.01, CEILING iff normal.y < -0.01, WALL_X_PROJ
iff y lies in the closed band [-0.01, 0.01] and |x| > 0.707,
WALL_Z_PROJ otherwise — and the concrete normals of the claim classify
as stated; in particular (0, 0.01, 0) is not a FLOOR because the
threshold comparison is strict. -/
theorem C6_surface_classification :
    (∀ n : SurfaceNormal, classify_surface n = SurfaceType.FLOOR ↔ (0.01 : ℚ) < n.y) ∧
    (∀ n : SurfaceNormal, classify_surface n = SurfaceType.CEILING ↔ n.y < -0.01) ∧
    (∀ n : SurfaceNormal, classify_surface n = SurfaceType.WALL_X_PROJ ↔
      (-0.01 ≤ n.y ∧ n.y ≤ 0.01 ∧ (n.x < -0.707 ∨ 0.707 < n.x))) ∧
    (∀ n : SurfaceNormal, classify_surface n = SurfaceType.WALL_Z_PROJ ↔
      (-0.01 ≤ n.y ∧ n.y ≤ 0.01 ∧ -0.707 ≤ n.x ∧ n.x ≤ 0.707)) ∧
    classify_surface ⟨0, 1, 0⟩ = SurfaceType.FLOOR ∧
    classify_surface ⟨0, -1, 0⟩ = SurfaceType.CEILING ∧
    classify_surface ⟨1, 0, 0⟩ = SurfaceType.WALL_X_PROJ ∧
    classify_surface ⟨0, 0, 1⟩ = SurfaceType.WALL_Z_PROJ ∧
    classify_surface ⟨0.005, 0.999, 0⟩ = SurfaceType.FLOOR ∧
    classify_surface ⟨0, 0.01, 0⟩ ≠ SurfaceType.FLOOR := by
  have hthr : (-0.01 : ℚ) < 0.01 := by norm_num
  have hthr2 : (-0.707 : ℚ) < 0.707 := by norm_num
  refine ⟨?_, ?_, ?_, ?_, ?_, ?_, ?_, ?_, ?_, ?_⟩
  · intro n
    unfold classify_surface
    split_ifs with h1 h2 h3
    · exact iff_of_true rfl h1
    · exact iff_of_false (by simp) h1
    · exact iff_of_false (by simp) h1
    · exact iff_of_false (by simp) h1
  · intro n
    unfold classify_surface
    split_ifs with h1 h2 h3
    · exact iff_of_false (by simp) (fun hy => by linarith)
    · exact iff_of_true rfl h2
    · exact iff_of_false (by simp) h2
    · exact iff_of_false (by simp) h2
  · intro n
    unfold classify_surface
    split_ifs with h1 h2 h3
    · refine iff_of_false (by simp) ?_
      rintro ⟨-, hy, -⟩
      linarith
    · refine iff_of_false (by simp) ?_
      rintro ⟨hy, -, -⟩
      linarith
    · push_neg at h1 h2
      exact iff_of_true rfl ⟨by linarith, by linarith, h3⟩
    · refine iff_of_false (by simp) ?_
      rintro ⟨-, -, hx⟩
      exact h3 hx
  · intro n
    unfold classify_surface
    split_ifs with h1 h2 h3
    · refine iff_of_false (by simp) ?_
      rintro ⟨-, hy, -, -⟩
      linarith
    · refine iff_of_false (by simp) ?_
      rintro ⟨hy, -, -, -⟩
      linarith
    · refine iff_of_false (by simp) ?_
      rintro ⟨-, -, hx1, hx2⟩
      rcases h3 with h | h <;> linarith
    · push_neg at h1 h2 h3
      exact iff_of_true rfl ⟨by linarith, by linarith, h3.1, h3.2⟩
  · norm_num [classify_surface]
  · norm_num [classify_surface]
  · norm_num [classify_surface]
  · norm_num [classify_surface]
  · norm_num [classify_surface]
  · have hz : classify_surface ⟨0, 0.01, 0⟩ = SurfaceType.WALL_Z_PROJ := by
      norm_num [classify_surface]
    rw [hz]
    simp

/-- C9: a command whose opcode-word high byte is 0x01 makes the
interpreter abort with the gSPMatrix diagnostic, regardless of the
operand word and of the remaining opcode-word bits. -/
theorem C9_matrix_aborts (c : Ctx) (fuel : Nat) (dl : Int) (s : IState)
    (h : c.mem dl % 2 ^ 32 / 2 ^ 24 = 0x01) :
    interpret_display_list c (fuel + 1) dl s = DLResult.abort AbortReason.gSPMatrix s := by
  unfold interpret_display_list
  rw [if_pos h]

/-- Witness for C9: the context whose first opcode word is 0x01ABCDEF
(high byte 0x01, nonzero remaining bits and operand) aborts. -/
theorem C9_matrix_aborts_witness :
    interpret_display_list ctxMatrix 1 0 st0 = DLResult.abort AbortReason.gSPMatrix st0 :=
  C9_matrix_aborts ctxMatrix 0 0 st0 (by decide)

/-- If no descriptor of the table contains addr, the scan loop keeps
its accumulator. -/
theorem segLoop_all_false (addr : Nat) :
    ∀ (t : List SegmentDescriptor) (r : Nat),
      (∀ d ∈ t, segContains d addr = false) → segLoop addr t r = some r := by
  intro t
  induction t with
  | nil => intro r _; rfl
  | cons d ds ih =>
    intro r h
    have hd := h d (List.mem_cons_self d ds)
    simp only [segLoop, hd, Bool.false_eq_true, if_false]
    exact ih r (fun d2 hd2 => h d2 (List.mem_cons_of_mem d hd2))

/-- The match count is zero exactly when no descriptor contains addr. -/
theorem countMatches_eq_zero {table : List SegmentDescriptor} {addr : Nat} :
    countMatches table addr = 0 ↔ ∀ d ∈ table, segContains d addr = false := by
  simp [countMatches, List.length_eq_zero, List.filter_eq_nil_iff]

/-- Unfolding of the match count over a cons cell. -/
theorem countMatches_cons (d : SegmentDescriptor) (ds : List SegmentDescriptor) (addr : Nat) :
    countMatches (d :: ds) addr =
      (if segContains d addr = true then 1 else 0) + countMatches ds addr := by
  by_cases h : segContains d addr = true
  · simp [countMatches, List.filter_cons, h]
    omega
  · simp [countMatches, List.filter_cons, h]

/-- A positive match count yields a matching descriptor. -/
theorem countMatches_pos {table : List SegmentDescriptor} {addr : Nat}
    (h : 0 < countMatches table addr) : ∃ d ∈ table, segContains d addr = true := by
  by_contra hc
  push_neg at hc
  have hz : countMatches table addr = 0 :=
    countMatches_eq_zero.mpr (fun d hd => by simpa using hc d hd)
  omega

/-- Once the accumulator is nonzero, any further match aborts the scan. -/
theorem segLoop_abort (addr : Nat) :
    ∀ (t : List SegmentDescriptor) (r : Nat), r ≠ 0 →
      (∃ d ∈ t, segContains d addr = true) → segLoop addr t r = none := by
  intro t
  induction t with
  | nil =>
    rintro r hr ⟨d, hd, -⟩
    simp at hd
  | cons d ds ih =>
    rintro r hr ⟨d2, hd2, hm⟩
    by_cases h : segContains d addr = true
    · simp [segLoop, h, hr]
    · have hmem : d2 ∈ ds := by
        rcases List.mem_cons.mp hd2 with rfl | hmem
        · exact absurd hm h
        · exact hmem
      simp only [segLoop, h, Bool.false_eq_true, if_false]
      exact ih r hr ⟨d2, hmem, hm⟩

/-- Behavior of the scan loop started on the null accumulator, under the
hypothesis that no matching descriptor translates addr to the null
address: zero matches keep the accumulator, a unique match installs its
translation, and two or more matches abort. -/
theorem segLoop_zero (addr : Nat) :
    ∀ t : List SegmentDescriptor,
      (∀ d ∈ t, segContains d addr = true → addr - d.srcStart + d.dstStart ≠ 0) →
      (countMatches t addr = 0 → segLoop addr t 0 = some 0) ∧
      (countMatches t addr = 1 → ∀ d ∈ t, segContains d addr = true →
        segLoop addr t 0 = some (addr - d.srcStart + d.dstStart)) ∧
      (2 ≤ countMatches t addr → segLoop addr t 0 = none) := by
  intro t
  induction t with
  | nil =>
    intro _
    refine ⟨fun _ => rfl, ?_, ?_⟩
    · intro _ d hd
      simp at hd
    · intro h
      simp [countMatches] at h
  | cons d ds ih =>
    intro hnn
    have hnn2 : ∀ d2 ∈ ds, segContains d2 addr = true → addr - d2.srcStart + d2.dstStart ≠ 0 :=
      fun d2 hd2 => hnn d2 (List.mem_cons_of_mem d hd2)
    obtain ⟨ih0, ih1, ih2⟩ := ih hnn2
    have hc := countMatches_cons d ds addr
    by_cases h : segContains d addr = true
    · have hT : addr - d.srcStart + d.dstStart ≠ 0 := hnn d (List.mem_cons_self d ds) h
      rw [if_pos h] at hc
      refine ⟨?_, ?_, ?_⟩
      · intro h0
        omega
      · intro h1 d2 hd2 hm2
        have hds0 : countMatches ds addr = 0 := by omega
        have hall := countMatches_eq_zero.mp hds0
        have hd2head : d2 = d := by
          rcases List.mem_cons.mp hd2 with rfl | hmem
          · rfl
          · exact absurd hm2 (by simp [hall d2 hmem])
        subst hd2head
        simp only [segLoop]
        rw [if_pos h, if_neg (show ¬((0 : Nat) ≠ 0) by omega)]
        exact segLoop_all_false addr ds _ hall
      · intro h2
        have hpos : 0 < countMatches ds addr := by omega
        obtain ⟨d2, hd2, hm2⟩ := countMatches_pos hpos
        simp only [segLoop]
        rw [if_pos h, if_neg (show ¬((0 : Nat) ≠ 0) by omega)]
        exact segLoop_abort addr ds _ hT ⟨d2, hd2, hm2⟩
    · rw [if_neg h] at hc
      refine ⟨?_, ?_, ?_⟩
      · intro h0
        simp only [segLoop, h, Bool.false_eq_true, if_false]
        exact ih0 (by omega)
      · intro h1 d2 hd2 hm2
        have hd2mem : d2 ∈ ds := by
          rcases List.mem_cons.mp hd2 with rfl | hmem
          · exact absurd hm2 h
          · exact hmem
        simp only [segLoop, h, Bool.false_eq_true, if_false]
        exact ih1 (by omega) d2 hd2mem hm2
      · intro h2
        simp only [segLoop, h, Bool.false_eq_true, if_false]
        exact ih2 (by omega)

/-- C1 (amended): provided no matching descriptor translates the address
to the null address (the accumulator's "no match yet" sentinel),
segmented_to_virtual returns the address unchanged when no descriptor's
source range contains it, returns value - srcStart + dstStart when
exactly one descriptor contains it, and aborts (returns none) when two
or more descriptors contain it. -/
theorem C1_segment_translation (table : List SegmentDescriptor) (v : Nat)
    (hnn : ∀ d ∈ table, segContains d v = true → v - d.srcStart + d.dstStart ≠ 0) :
    (countMatches table v = 0 → segmented_to_virtual table v = some v) ∧
    (countMatches table v = 1 → ∀ d ∈ table, segContains d v = true →
      segmented_to_virtual table v = some (v - d.srcStart + d.dstStart)) ∧
    (2 ≤ countMatches table v → segmented_to_virtual table v = none) := by
  obtain ⟨h0, h1, h2⟩ := segLoop_zero v table hnn
  refine ⟨?_, ?_, ?_⟩
  · intro hc
    simp [segmented_to_virtual, h0 hc]
  · intro hc d hd hm
    have hT := hnn d hd hm
    simp [segmented_to_virtual, h1 hc d hd hm, hT]
  · intro hc
    simp [segmented_to_virtual, h2 hc]

/-- C1 counterexample: in the 32-entry table overlapTable the first two
descriptors both contain address 0, yet segmented_to_virtual returns
some 256 instead of aborting. The first match translates 0 to the null
address, which the accumulator cannot distinguish from "no match yet",
so the double-match check never fires and a result is returned
silently — contradicting the claim that two or more matching
descriptors always abort. -/
theorem C1_counterexample :
    overlapTable.length = 32 ∧
    countMatches overlapTable 0 = 2 ∧
    segmented_to_virtual overlapTable 0 = some 256 := by
  decide

/-- Witness for C1 (amended) at the single-match table: address 12 is
translated to 12 - 10 + 100. -/
theorem C1_segment_translation_witness :
    segmented_to_virtual singleTable 12 = some (12 - 10 + 100) :=
  (C1_segment_translation singleTable 12 (by decide)).2.1 (by decide)
    ⟨10, 20, 100⟩ (by decide) (by decide)

/-- List.findIdx returns the index of the first element satisfying the
predicate. -/
theorem findIdx_first {α : Type} (p : α → Bool) :
    ∀ (l : List α) (i : Nat) (a : α), l.get? i = some a → p a = true →
      (∀ b ∈ l.take i, p b = false) → l.findIdx p = i := by
  intro l
  induction l with
  | nil =>
    intro i a h
    simp at h
  | cons x xs ih =>
    intro i a hga hpa hbefore
    cases i with
    | zero =>
      simp at hga
      subst hga
      simp [List.findIdx_cons, hpa]
    | succ j =>
      have hx : p x = false := hbefore x (by simp [List.take_succ_cons])
      simp only [List.findIdx_cons, hx, cond_false]
      have := ih j a (by simpa using hga) hpa
        (fun b hb => hbefore b (by simp [List.take_succ_cons, hb]))
      omega

/-- List.findIdx returns the length when no element satisfies the
predicate. -/
theorem findIdx_none {α : Type} (p : α → Bool) :
    ∀ l : List α, (∀ a ∈ l, p a = false) → l.findIdx p = l.length := by
  intro l
  induction l with
  | nil => intro _; rfl
  | cons x xs ih =>
    intro h
    simp only [List.findIdx_cons, h x (List.mem_cons_self x xs), cond_false, List.length_cons]
    have := ih (fun a ha => h a (List.mem_cons_of_mem x ha))
    omega

/-- C7: current_index is the position of the first history element whose
frame id equals the current snapshot's frame id, and is the sentinel end
position — the history length — when no element matches. -/
theorem C7_current_index (states : List PathState) (cur : PathState) :
    (∀ i st, states.get? i = some st → st.frame = cur.frame →
      (∀ st2 ∈ states.take i, st2.frame ≠ cur.frame) →
      current_index states cur = i) ∧
    ((∀ st ∈ states, st.frame ≠ cur.frame) → current_index states cur = states.length) := by
  constructor
  · intro i st hget hframe hbefore
    exact findIdx_first _ states i st hget (by simpa using hframe)
      (fun b hb => by simpa using hbefore b hb)
  · intro h
    exact findIdx_none _ states (fun a ha => by simpa using h a ha)

/-- Witness for C7: for history frames [10, 20, 30] and current frame 20
the index is 1, and for an unmatched current frame 99 the index is the
sentinel length 3. -/
theorem C7_current_index_witness :
    current_index exStates exCur = 1 ∧ current_index exStates ⟨99, ⟨0, 0, 0⟩, []⟩ = 3 :=
  ⟨(C7_current_index exStates exCur).1 1 exS1 (by decide) (by decide) (by decide),
   (C7_current_index exStates ⟨99, ⟨0, 0, 0⟩, []⟩).2 (by decide)⟩

/-- appendQSteps preserves the path length. -/
theorem appendQSteps_length (qs : List QStep) :
    ∀ l : List ObjectPathNode, (appendQSteps qs l).length = l.length := by
  intro l
  induction l with
  | nil => rfl
  | cons a l ih =>
    cases l with
    | nil => rfl
    | cons b l2 =>
      simp only [appendQSteps, List.length_cons, ih]

/-- appendQSteps appends the steps to the final node. -/
theorem appendQSteps_append (qs : List QStep) :
    ∀ (l : List ObjectPathNode) (nd : ObjectPathNode),
      appendQSteps qs (l ++ [nd]) = l ++ [⟨nd.pos, nd.quarter_steps ++ qs⟩] := by
  intro l
  induction l with
  | nil => intro nd; rfl
  | cons a l ih =>
    intro nd
    cases l with
    | nil => rfl
    | cons b l2 =>
      have ih2 := ih nd
      simp only [List.cons_append] at ih2 ⊢
      simp only [appendQSteps]
      rw [ih2]

/-- Once the path has grown past ci + 1 nodes the copy condition can
never fire again: every remaining snapshot appends a plain node. -/
theorem bmp_noTrigger (ci : Nat) :
    ∀ (states : List PathState) (path : List ObjectPathNode) (logs : List Nat),
      ci + 1 < path.length →
      build_mario_path ci states path logs = (path ++ states.map plainNode, logs) := by
  intro states
  induction states with
  | nil =>
    intro path logs _
    simp [build_mario_path]
  | cons st rest ih =>
    intro path logs h
    rw [build_mario_path, if_neg (by rintro ⟨-, hlen⟩; omega)]
    rw [ih (path ++ [plainNode st]) logs (by simp; omega)]
    simp

/-- If the snapshots run out before the path reaches ci + 1 nodes, the
copy condition never fires. -/
theorem bmp_preTrigger (ci : Nat) :
    ∀ (states : List PathState) (path : List ObjectPathNode) (logs : List Nat),
      path.length + states.length ≤ ci + 1 →
      build_mario_path ci states path logs = (path ++ states.map plainNode, logs) := by
  intro states
  induction states with
  | nil =>
    intro path logs _
    simp [build_mario_path]
  | cons st rest ih =>
    intro path logs h
    simp only [List.length_cons] at h
    rw [build_mario_path, if_neg (by rintro ⟨-, hlen⟩; omega)]
    rw [ih (path ++ [plainNode st]) logs (by simp; omega)]
    simp

/-- At the moment the path holds exactly ci + 1 nodes, the snapshot
being processed donates its quarter-step log to the last node, and the
remainder of the loop appends plain nodes. -/
theorem bmp_atTrigger (ci : Nat) (st : PathState) (rest : List PathState)
    (path : List ObjectPathNode) (logs : List Nat) (h : path.length = ci + 1) :
    build_mario_path ci (st :: rest) path logs =
      (appendQSteps st.qsteps path ++ [plainNode st] ++ rest.map plainNode,
        logs ++ qstepDiag st) := by
  have hne : path ≠ [] := by
    intro hnil
    rw [hnil] at h
    simp at h
  rw [build_mario_path, if_pos ⟨hne, h⟩]
  rw [bmp_noTrigger ci rest _ _ (by simp [appendQSteps_length]; omega)]

/-- Processing a concatenated snapshot list is sequential composition. -/
theorem bmp_append (ci : Nat) :
    ∀ (A R : List PathState) (path : List ObjectPathNode) (logs : List Nat),
      build_mario_path ci (A ++ R) path logs =
        build_mario_path ci R (build_mario_path ci A path logs).1
          (build_mario_path ci A path logs).2 := by
  intro A
  induction A with
  | nil => intro R path logs; rfl
  | cons st A ih =>
    intro R path logs
    by_cases h : path ≠ [] ∧ path.length = ci + 1
    · rw [List.cons_append, build_mario_path, if_pos h, build_mario_path, if_pos h]
      exact ih R _ _
    · rw [List.cons_append, build_mario_path, if_neg h, build_mario_path, if_neg h]
      exact ih R _ _

/-- Full description of the loop result when a snapshot follows the
current one: node ci receives snapshot (ci+1)'s log, all other nodes
are plain, and the diagnostic is the one of snapshot ci + 1. -/
theorem bmp_full (ci : Nat) (states : List PathState) (stc st2 : PathState)
    (hlt : ci + 1 < states.length)
    (hstc : states[ci]? = some stc) (hst2 : states[ci + 1]? = some st2) :
    build_mario_path ci states [] [] =
      ((states.take ci).map plainNode ++
        (⟨stc.marioPos, st2.qsteps⟩ : ObjectPathNode) ::
        plainNode st2 :: (states.drop (ci + 2)).map plainNode,
        qstepDiag st2) := by
  have hci : ci < states.length := by omega
  have hdrop : states.drop (ci + 1) = st2 :: states.drop (ci + 2) := by
    rw [List.drop_eq_getElem_cons hlt]
    rw [List.getElem?_eq_getElem hlt] at hst2
    rw [Option.some_inj.mp hst2]
  have htake : states.take (ci + 1) = states.take ci ++ [stc] := by
    rw [List.take_succ, hstc]
    rfl
  conv_lhs => rw [show states = states.take (ci + 1) ++ states.drop (ci + 1) from
    (List.take_append_drop _ _).symm]
  rw [bmp_append]
  rw [bmp_preTrigger ci (states.take (ci + 1)) [] [] (by simp [List.length_take])]
  simp only [List.nil_append]
  rw [hdrop]
  rw [bmp_atTrigger ci st2 (states.drop (ci + 2)) ((states.take (ci + 1)).map plainNode) []
    (by simp [List.length_take]; omega)]
  rw [htake, List.map_append]
  simp only [List.map_cons, List.map_nil]
  rw [appendQSteps_append]
  simp [plainNode]

/-- Per-index description of the built path: node k carries snapshot k's
position; only node ci can receive quarter steps, namely snapshot
(ci + 1)'s log when that snapshot exists. -/
theorem bmp_get (ci : Nat) (states : List PathState) (k : Nat) :
    (build_mario_path ci states [] []).1[k]? =
      states[k]?.map (fun st =>
        ⟨st.marioPos,
          if k = ci then
            (match states[ci + 1]? with
              | some st2 => st2.qsteps
              | none => [])
          else []⟩) := by
  by_cases hlt : ci + 1 < states.length
  · have hci : ci < states.length := by omega
    obtain ⟨st2, hst2⟩ : ∃ st2, states[ci + 1]? = some st2 :=
      ⟨_, List.getElem?_eq_getElem hlt⟩
    obtain ⟨stc, hstc⟩ : ∃ stc, states[ci]? = some stc :=
      ⟨_, List.getElem?_eq_getElem hci⟩
    rw [bmp_full ci states stc st2 hlt hstc hst2]
    simp only [hst2]
    have hXlen : ((states.take ci).map plainNode).length = ci := by
      simp [List.length_take]
      omega
    rcases Nat.lt_trichotomy k ci with hk | hk | hk
    · rw [List.getElem?_append_left (by omega)]
      rw [List.getElem?_map, List.getElem?_take_of_lt hk]
      rw [List.getElem?_eq_getElem (by omega : k < states.length)]
      simp [plainNode, Nat.ne_of_lt hk]
    · subst hk
      rw [List.getElem?_append_right (by omega)]
      rw [hXlen, Nat.sub_self]
      rw [hstc]
      simp
    · rw [List.getElem?_append_right (by omega)]
      rw [hXlen]
      rcases Nat.lt_or_ge k (ci + 2) with hk2 | hk2
      · have hk1 : k = ci + 1 := by omega
        subst hk1
        rw [show ci + 1 - ci = 1 by omega]
        rw [hst2]
        simp [plainNode, Nat.ne_of_gt hk]
      · rw [show k - ci = (k - ci - 2) + 2 by omega]
        simp only [List.getElem?_cons_succ]
        rw [List.getElem?_map, List.getElem?_drop]
        rw [show ci + 2 + (k - ci - 2) = k by omega]
        cases hgk : states[k]? with
        | none => rfl
        | some stk =>
          simp [plainNode, Nat.ne_of_gt hk]
  · push_neg at hlt
    rw [bmp_preTrigger ci states [] [] (by simpa using hlt)]
    have hnone : states[ci + 1]? = none := List.getElem?_eq_none (by omega)
    rw [hnone]
    simp only [List.nil_append, List.getElem?_map]
    cases hgk : states[k]? with
    | none => simp
    | some stk => simp [plainNode]

/-- The diagnostics printed by the loop: exactly those of snapshot
ci + 1 when it exists, nothing otherwise. -/
theorem bmp_logs (ci : Nat) (states : List PathState) :
    (build_mario_path ci states [] []).2 =
      match states[ci + 1]? with
      | some st2 => qstepDiag st2
      | none => [] := by
  by_cases hlt : ci + 1 < states.length
  · have hci : ci < states.length := by omega
    obtain ⟨st2, hst2⟩ : ∃ st2, states[ci + 1]? = some st2 :=
      ⟨_, List.getElem?_eq_getElem hlt⟩
    obtain ⟨stc, hstc⟩ : ∃ stc, states[ci]? = some stc :=
      ⟨_, List.getElem?_eq_getElem hci⟩
    rw [bmp_full ci states stc st2 hlt hstc hst2, hst2]
  · push_neg at hlt
    rw [bmp_preTrigger ci states [] [] (by simpa using hlt)]
    rw [List.getElem?_eq_none (by omega : states.length ≤ ci + 1)]

/-- C5 counterexample: for history frames [10, 20, 30] with current
frame 20 (so current_index = 1), the node immediately preceding the
current node is node 0 and the current-minus-one frame's snapshot is
exS0, whose log is nonempty; yet node 0 ends with empty quarter_steps.
The only node that receives quarter steps is node 1 — the current node
itself — and it receives the log of exS2, the current-plus-one frame's
snapshot, which differs from exS0's log. This contradicts the claim
that the log of the current-minus-one snapshot is copied into the node
preceding the current one. -/
theorem C5_counterexample :
    current_index exStates exCur = 1 ∧
    (build_mario_path (current_index exStates exCur) exStates [] []).1.map
      (fun nd => nd.quarter_steps) = [[], exS2.qsteps, []] ∧
    exS0.qsteps ≠ [] ∧
    exS2.qsteps ≠ exS0.qsteps := by
  decide

/-- C5 (amended): when the history holds a snapshot immediately after
the current one (index current_index + 1), that snapshot's quarter-step
log is copied, in log order, into the quarter_steps of the node at
current_index — the current node itself; every other node's
quarter_steps stays empty; when no such snapshot exists no node
receives quarter steps; and the over-length diagnostic is emitted
exactly when that donor log holds more than 4 entries, without
affecting the copy (informational, not an error). -/
theorem C5_quarter_steps (states : List PathState) (cur : PathState) :
    (∀ st2, states[current_index states cur + 1]? = some st2 →
      ((build_mario_path (current_index states cur) states [] []).1[current_index states cur]?).map
        (fun nd => nd.quarter_steps) = some st2.qsteps) ∧
    (∀ (k : Nat) (nd : ObjectPathNode), k ≠ current_index states cur →
      (build_mario_path (current_index states cur) states [] []).1[k]? = some nd →
      nd.quarter_steps = []) ∧
    (states[current_index states cur + 1]? = none →
      ∀ (k : Nat) (nd : ObjectPathNode), (build_mario_path (current_index states cur) states [] []).1[k]? = some nd →
        nd.quarter_steps = []) ∧
    ((build_mario_path (current_index states cur) states [] []).2 ≠ [] ↔
      ∃ st2, states[current_index states cur + 1]? = some st2 ∧ 4 < st2.qsteps.length) := by
  refine ⟨?_, ?_, ?_, ?_⟩
  · intro st2 hst2
    have hlen : current_index states cur + 1 < states.length := by
      by_contra hc
      push_neg at hc
      rw [List.getElem?_eq_none (by omega)] at hst2
      cases hst2
    rw [bmp_get]
    rw [List.getElem?_eq_getElem (by omega : current_index states cur < states.length)]
    simp [hst2]
  · intro k nd hk hnd
    rw [bmp_get] at hnd
    cases hgk : states[k]? with
    | none =>
      rw [hgk] at hnd
      simp at hnd
    | some stk =>
      rw [hgk] at hnd
      simp only [Option.map_some'] at hnd
      rw [← Option.some_inj.mp hnd]
      simp [hk]
  · intro hnone k nd hnd
    rw [bmp_get, hnone] at hnd
    cases hgk : states[k]? with
    | none =>
      rw [hgk] at hnd
      simp at hnd
    | some stk =>
      rw [hgk] at hnd
      simp only [Option.map_some'] at hnd
      rw [← Option.some_inj.mp hnd]
      simp
  · rw [bmp_logs]
    cases hst2 : states[current_index states cur + 1]? with
    | none => simp
    | some st2 =>
      simp only [qstepDiag, Option.some_inj]
      split_ifs with h <;> simp [h]

/-- Witness for C5 (amended) on the example history: the current node
(index 1) receives exS2's log, and node 0 — which precedes the current
node — keeps empty quarter_steps. -/
theorem C5_quarter_steps_witness :
    ((build_mario_path (current_index exStates exCur) exStates [] []).1[current_index exStates exCur]?).map
      (fun nd => nd.quarter_steps) = some exS2.qsteps ∧
    (⟨⟨0, 0, 0⟩, []⟩ : ObjectPathNode).quarter_steps = [] :=
  ⟨(C5_quarter_steps exStates exCur).1 exS2 (by decide),
   (C5_quarter_steps exStates exCur).2.1 0 ⟨⟨0, 0, 0⟩, []⟩ (by decide) (by decide)⟩

/-- C10: at most one node of the path built by one render call has
nonempty quarter_steps: the copy condition (path nonempty and path size
equal to current_index + 1) can hold in at most one loop iteration
because the path grows by exactly one node per iteration, so any two
nodes with nonempty quarter_steps are the same node. -/
theorem C10_unique_quarter_steps (states : List PathState) (cur : PathState) :
    ∀ (j k : Nat) (ndj ndk : ObjectPathNode),
      (build_mario_path (current_index states cur) states [] []).1[j]? = some ndj →
      (build_mario_path (current_index states cur) states [] []).1[k]? = some ndk →
      ndj.quarter_steps ≠ [] → ndk.quarter_steps ≠ [] → j = k := by
  intro j k ndj ndk hj hk hne1 hne2
  have hji : j = current_index states cur := by
    by_contra hc
    rw [bmp_get] at hj
    cases hgj : states[j]? with
    | none =>
      rw [hgj] at hj
      simp at hj
    | some stj =>
      rw [hgj] at hj
      simp only [Option.map_some'] at hj
      rw [← Option.some_inj.mp hj] at hne1
      simp [hc] at hne1
  have hki : k = current_index states cur := by
    by_contra hc
    rw [bmp_get] at hk
    cases hgk : states[k]? with
    | none =>
      rw [hgk] at hk
      simp at hk
    | some stk =>
      rw [hgk] at hk
      simp only [Option.map_some'] at hk
      rw [← Option.some_inj.mp hk] at hne2
      simp [hc] at hne2
  rw [hji, hki]

/-- Witness for C10 at the example history: the two positions carrying
nonempty quarter steps coincide (both are node 1). -/
theorem C10_unique_quarter_steps_witness : (1 : Nat) = 1 :=
  C10_unique_quarter_steps exStates exCur 1 1
    ⟨⟨5, 0, 0⟩, exS2.qsteps⟩ ⟨⟨5, 0, 0⟩, exS2.qsteps⟩
    (by decide) (by decide) (by decide) (by decide)

/-- A slot outside the written range keeps its contents. -/
theorem loadVerts_out (c : Ctx) (vbase : Int) (v0 : Nat) :
    ∀ (m : Nat) (store : Nat → Vec3) (k : Nat),
      k < v0 ∨ v0 + m ≤ k → loadVerts c vbase v0 m store k = store k := by
  intro m
  induction m with
  | zero => intro store k _; rfl
  | succ m ih =>
    intro store k hk
    simp only [loadVerts, writeSlot]
    rw [if_neg (by omega)]
    exact ih store k (by omega)

/-- A slot inside the written range receives the decoded source vertex
at the offset of the slot from the base. -/
theorem loadVerts_in (c : Ctx) (vbase : Int) (v0 : Nat) :
    ∀ (m : Nat) (store : Nat → Vec3) (k : Nat),
      v0 ≤ k → k < v0 + m → loadVerts c vbase v0 m store k = c.vtx vbase (k - v0) := by
  intro m
  induction m with
  | zero =>
    intro store k h1 h2
    omega
  | succ m ih =>
    intro store k h1 h2
    simp only [loadVerts, writeSlot]
    by_cases hk : k = v0 + m
    · rw [if_pos hk]
      congr 1
      omega
    · rw [if_neg hk]
      exact ih store k h1 (by omega)

/-- Inside the loaded range, execVertex installs the decoded vertices. -/
theorem execVertex_store_in (c : Ctx) (w0 w1 : Nat) (vc : VCache) (k : Nat)
    (h1 : vertexBase w0 ≤ k) (h2 : k < vertexBase w0 + vertexCount w0) :
    (execVertex c w0 w1 vc).store k =
      c.vtx (from_base c.size c.base c.data (Int.ofNat w1)) (k - vertexBase w0) :=
  loadVerts_in c _ _ _ _ k h1 h2

/-- Outside the loaded range, execVertex keeps the previous contents. -/
theorem execVertex_store_out (c : Ctx) (w0 w1 : Nat) (vc : VCache) (k : Nat)
    (h : k < vertexBase w0 ∨ vertexBase w0 + vertexCount w0 ≤ k) :
    (execVertex c w0 w1 vc).store k = vc.store k :=
  loadVerts_out c _ _ _ _ k h

/-- The ghost write log of a vertex load records exactly the interval
[v0, v0 + n). -/
theorem mem_vertexWrites {w0 k : Nat} :
    k ∈ (List.range (vertexCount w0)).map (fun i => vertexBase w0 + i) ↔
      vertexBase w0 ≤ k ∧ k < vertexBase w0 + vertexCount w0 := by
  constructor
  · intro hk
    simp only [List.mem_map, List.mem_range] at hk
    obtain ⟨i, hi, rfl⟩ := hk
    omega
  · intro hk
    simp only [List.mem_map, List.mem_range]
    exact ⟨k - vertexBase w0, by omega, by omega⟩

/-- The base slot of a vertex load is a 4-bit field. -/
theorem vertexBase_lt (w0 : Nat) : vertexBase w0 < 16 :=
  Nat.mod_lt _ (by norm_num)

/-- The vertex count of a vertex load is at most 16. -/
theorem vertexCount_le (w0 : Nat) : vertexCount w0 ≤ 16 := by
  have h := Nat.mod_lt (w0 / 2 ^ 20) (show 0 < 16 by norm_num)
  unfold vertexCount
  omega

/-- Dividing a byte by 10 lands below 32. -/
theorem div10_lt_32 {a : Nat} (h : a < 256) : a / 10 < 32 := by
  have h2 : a / 10 ≤ 255 / 10 := Nat.div_le_div_right (by omega)
  norm_num at h2
  omega

/-- The first triangle slot index is below 32. -/
theorem triIndex0_lt (w1 : Nat) : triIndex0 w1 < 32 :=
  div10_lt_32 (Nat.mod_lt _ (by norm_num))

/-- The second triangle slot index is below 32. -/
theorem triIndex1_lt (w1 : Nat) : triIndex1 w1 < 32 :=
  div10_lt_32 (Nat.mod_lt _ (by norm_num))

/-- The third triangle slot index is below 32. -/
theorem triIndex2_lt (w1 : Nat) : triIndex2 w1 < 32 :=
  div10_lt_32 (Nat.mod_lt _ (by norm_num))

/-- Combined run invariants of the interpreter: the ghost write log only
grows; a slot absent from the final write log keeps the contents it
started with; and if all logged accesses were below 32 at the start they
stay below 32 throughout. -/
theorem interpret_invariants (c : Ctx) :
    ∀ (fuel : Nat) (dl : Int) (s : IState),
      s.writes ⊆ (resState (interpret_display_list c fuel dl s)).writes ∧
      (∀ k : Nat, k ∉ (resState (interpret_display_list c fuel dl s)).writes →
        (resState (interpret_display_list c fuel dl s)).loaded_vertices.store k =
          s.loaded_vertices.store k) ∧
      ((∀ k ∈ s.writes, k < 32) → (∀ k ∈ s.reads, k < 32) →
        (∀ k ∈ (resState (interpret_display_list c fuel dl s)).writes, k < 32) ∧
        (∀ k ∈ (resState (interpret_display_list c fuel dl s)).reads, k < 32)) := by
  intro fuel
  induction fuel with
  | zero =>
    intro dl s
    exact ⟨fun x hx => hx, fun k _ => rfl, fun hw hr => ⟨hw, hr⟩⟩
  | succ fuel ih =>
    intro dl s
    rw [interpret_display_list]
    by_cases h1 : c.mem dl % 2 ^ 32 / 2 ^ 24 = 0x01
    · rw [if_pos h1]
      exact ⟨fun x hx => hx, fun k _ => rfl, fun hw hr => ⟨hw, hr⟩⟩
    rw [if_neg h1]
    by_cases h2 : c.mem dl % 2 ^ 32 / 2 ^ 24 = 0x04
    · rw [if_pos h2]
      obtain ⟨ihS, ihP, ihB⟩ :=
        ih (dl + 8) (stepVertex c (c.mem dl % 2 ^ 32) (c.mem (dl + 4) % 2 ^ 32) s)
      refine ⟨?_, ?_, ?_⟩
      · exact List.Subset.trans (by simp [stepVertex]) ihS
      · intro k hk
        rw [ihP k hk]
        have hkw : k ∉ (stepVertex c (c.mem dl % 2 ^ 32) (c.mem (dl + 4) % 2 ^ 32) s).writes :=
          fun hmem => hk (ihS hmem)
        simp only [stepVertex, List.mem_append] at hkw
        push_neg at hkw
        have hout : ¬(vertexBase (c.mem dl % 2 ^ 32) ≤ k ∧
            k < vertexBase (c.mem dl % 2 ^ 32) + vertexCount (c.mem dl % 2 ^ 32)) :=
          fun hc0 => hkw.2 (mem_vertexWrites.mpr hc0)
        exact execVertex_store_out c _ _ _ k (by omega)
      · intro hw hr
        apply ihB
        · intro k hk
          simp only [stepVertex, List.mem_append] at hk
          rcases hk with hk | hk
          · exact hw k hk
          · have hm := mem_vertexWrites.mp hk
            have hb := vertexBase_lt (c.mem dl % 2 ^ 32)
            have hc2 := vertexCount_le (c.mem dl % 2 ^ 32)
            omega
        · intro k hk
          exact hr k hk
    rw [if_neg h2]
    by_cases h3 : c.mem dl % 2 ^ 32 / 2 ^ 24 = 0x06
    · rw [if_pos h3]
      by_cases h4 : c.mem dl % 2 ^ 32 = 0x06000000
      · rw [if_pos h4]
        cases hres : interpret_display_list c fuel
            (from_base c.size c.base c.data (Int.ofNat (c.mem (dl + 4) % 2 ^ 32))) s with
        | ok s1 =>
          obtain ⟨ihS1, ihP1, ihB1⟩ :=
            ih (from_base c.size c.base c.data (Int.ofNat (c.mem (dl + 4) % 2 ^ 32))) s
          rw [hres] at ihS1 ihP1 ihB1
          obtain ⟨ihS2, ihP2, ihB2⟩ := ih (dl + 8) s1
          refine ⟨?_, ?_, ?_⟩
          · exact List.Subset.trans ihS1 ihS2
          · intro k hk
            rw [ihP2 k hk]
            exact ihP1 k (fun hmem => hk (ihS2 hmem))
          · intro hw hr
            obtain ⟨hw1, hr1⟩ := ihB1 hw hr
            exact ihB2 hw1 hr1
        | abort r s1 =>
          obtain ⟨ihS1, ihP1, ihB1⟩ :=
            ih (from_base c.size c.base c.data (Int.ofNat (c.mem (dl + 4) % 2 ^ 32))) s
          rw [hres] at ihS1 ihP1 ihB1
          exact ⟨ihS1, ihP1, ihB1⟩
        | timeout s1 =>
          obtain ⟨ihS1, ihP1, ihB1⟩ :=
            ih (from_base c.size c.base c.data (Int.ofNat (c.mem (dl + 4) % 2 ^ 32))) s
          rw [hres] at ihS1 ihP1 ihB1
          exact ⟨ihS1, ihP1, ihB1⟩
      rw [if_neg h4]
      by_cases h5 : c.mem dl % 2 ^ 32 = 0x06010000
      · rw [if_pos h5]
        exact ih _ s
      · rw [if_neg h5]
        exact ⟨fun x hx => hx, fun k _ => rfl, fun hw hr => ⟨hw, hr⟩⟩
    rw [if_neg h3]
    by_cases h6 : c.mem dl % 2 ^ 32 / 2 ^ 24 = 0xB8
    · rw [if_pos h6]
      exact ⟨fun x hx => hx, fun k _ => rfl, fun hw hr => ⟨hw, hr⟩⟩
    rw [if_neg h6]
    by_cases h7 : c.mem dl % 2 ^ 32 / 2 ^ 24 = 0xBF
    · rw [if_pos h7]
      obtain ⟨ihS, ihP, ihB⟩ := ih (dl + 8) (stepTriangle (c.mem (dl + 4) % 2 ^ 32) s)
      refine ⟨ihS, fun k hk => ihP k hk, ?_⟩
      intro hw hr
      apply ihB
      · exact hw
      · intro k hk
        simp only [stepTriangle, List.mem_append] at hk
        rcases hk with hk | hk
        · exact hr k hk
        · simp only [List.mem_cons, List.not_mem_nil, or_false] at hk
          rcases hk with rfl | rfl | rfl
          · exact triIndex0_lt _
          · exact triIndex1_lt _
          · exact triIndex2_lt _
    rw [if_neg h7]
    exact ih _ _

/-- C3: a vertex-load command writes exactly the n = ((w0>>20)&0xF)+1
decoded positions into cache slots [v0, v0+n) with v0 = (w0>>16)&0xF;
every cache slot outside [v0, v0+n) retains its previous contents; and
across a whole interpretation any slot absent from the ghost write
log — which only vertex-load commands extend — still holds the contents
it had when the interpretation started, so cache entries persist across
subsequent commands until another vertex load overwrites them. -/
theorem C3_vertex_cache :
    (∀ (c : Ctx) (w0 w1 : Nat) (vc : VCache) (k : Nat),
      vertexBase w0 ≤ k → k < vertexBase w0 + vertexCount w0 →
      (execVertex c w0 w1 vc).store k =
        c.vtx (from_base c.size c.base c.data (Int.ofNat w1)) (k - vertexBase w0)) ∧
    (∀ (c : Ctx) (w0 w1 : Nat) (vc : VCache) (k : Nat),
      k < vertexBase w0 ∨ vertexBase w0 + vertexCount w0 ≤ k →
      (execVertex c w0 w1 vc).store k = vc.store k) ∧
    (∀ (c : Ctx) (fuel : Nat) (dl : Int) (s : IState) (k : Nat),
      k ∉ (resState (interpret_display_list c fuel dl s)).writes →
      (resState (interpret_display_list c fuel dl s)).loaded_vertices.store k =
        s.loaded_vertices.store k) :=
  ⟨execVertex_store_in, execVertex_store_out,
   fun c fuel dl s k => (interpret_invariants c fuel dl s).2.1 k⟩

/-- Witness for C3 on ctxVertex (one vertex load with n = 2, v0 = 0,
then end of list): slot 1 receives decoded source vertex 1, slot 5 is
untouched by the load, and after the whole run slot 5 still holds its
initial contents. -/
theorem C3_vertex_cache_witness :
    (execVertex ctxVertex 0x04100000 64 vcZero).store 1 =
      ctxVertex.vtx (from_base ctxVertex.size ctxVertex.base ctxVertex.data (Int.ofNat 64))
        (1 - vertexBase 0x04100000) ∧
    (execVertex ctxVertex 0x04100000 64 vcZero).store 5 = vcZero.store 5 ∧
    (resState (interpret_display_list ctxVertex 2 0 st0)).loaded_vertices.store 5 =
      st0.loaded_vertices.store 5 :=
  ⟨C3_vertex_cache.1 ctxVertex 0x04100000 64 vcZero 1 (by decide) (by decide),
   C3_vertex_cache.2.1 ctxVertex 0x04100000 64 vcZero 5 (Or.inr (by decide)),
   C3_vertex_cache.2.2 ctxVertex 2 0 st0 5 (by decide)⟩

/-- C4: a 0x06 command with opcode word exactly 0x06000000 runs a full
nested interpretation of the rebased target list, resumes at the
command following the 0x06 command when the nested run returns
normally, and propagates its outcome otherwise; an opcode word exactly
0x06010000 replaces the cursor with the rebased target — the source
sets it to target minus one 8-byte command so the loop's advance lands
exactly on the target — and never returns to the original cursor; any
other opcode word with high byte 0x06 aborts with the gSPDisplayList
diagnostic. -/
theorem C4_call_branch (c : Ctx) (fuel : Nat) (dl : Int) (s : IState) :
    (c.mem dl % 2 ^ 32 = 0x06000000 →
      interpret_display_list c (fuel + 1) dl s =
        match interpret_display_list c fuel
            (from_base c.size c.base c.data (Int.ofNat (c.mem (dl + 4) % 2 ^ 32))) s with
        | DLResult.ok s1 => interpret_display_list c fuel (dl + 8) s1
        | r => r) ∧
    (c.mem dl % 2 ^ 32 = 0x06010000 →
      interpret_display_list c (fuel + 1) dl s =
        interpret_display_list c fuel
          (from_base c.size c.base c.data (Int.ofNat (c.mem (dl + 4) % 2 ^ 32))) s) ∧
    (c.mem dl % 2 ^ 32 / 2 ^ 24 = 0x06 →
      c.mem dl % 2 ^ 32 ≠ 0x06000000 → c.mem dl % 2 ^ 32 ≠ 0x06010000 →
      interpret_display_list c (fuel + 1) dl s =
        DLResult.abort AbortReason.gSPDisplayList s) := by
  refine ⟨?_, ?_, ?_⟩
  · intro h
    have hcmd : c.mem dl % 2 ^ 32 / 2 ^ 24 = 0x06 := by rw [h]; norm_num
    rw [interpret_display_list]
    rw [if_neg (by rw [hcmd]; decide), if_neg (by rw [hcmd]; decide), if_pos hcmd, if_pos h]
  · intro h
    have hcmd : c.mem dl % 2 ^ 32 / 2 ^ 24 = 0x06 := by rw [h]; norm_num
    rw [interpret_display_list]
    rw [if_neg (by rw [hcmd]; decide), if_neg (by rw [hcmd]; decide), if_pos hcmd,
      if_neg (by rw [h]; decide), if_pos h]
    rw [show from_base c.size c.base c.data (Int.ofNat (c.mem (dl + 4) % 2 ^ 32)) - 8 + 8 =
      from_base c.size c.base c.data (Int.ofNat (c.mem (dl + 4) % 2 ^ 32)) by omega]
  · intro hcmd hne1 hne2
    rw [interpret_display_list]
    rw [if_neg (by rw [hcmd]; decide), if_neg (by rw [hcmd]; decide), if_pos hcmd,
      if_neg hne1, if_neg hne2]

/-- Witness for C4: ctxCall runs the nested list at the rebased target
and resumes after the call; ctxBranch continues at the rebased target;
ctxBad aborts. -/
theorem C4_call_branch_witness :
    (interpret_display_list ctxCall 2 0 st0 =
      match interpret_display_list ctxCall 1
          (from_base ctxCall.size ctxCall.base ctxCall.data
            (Int.ofNat (ctxCall.mem (0 + 4) % 2 ^ 32))) st0 with
      | DLResult.ok s1 => interpret_display_list ctxCall 1 (0 + 8) s1
      | r => r) ∧
    (interpret_display_list ctxBranch 2 0 st0 =
      interpret_display_list ctxBranch 1
        (from_base ctxBranch.size ctxBranch.base ctxBranch.data
          (Int.ofNat (ctxBranch.mem (0 + 4) % 2 ^ 32))) st0) ∧
    (interpret_display_list ctxBad 1 0 st0 = DLResult.abort AbortReason.gSPDisplayList st0) :=
  ⟨(C4_call_branch ctxCall 1 0 st0).1 (by decide),
   (C4_call_branch ctxBranch 1 0 st0).2.1 (by decide),
   (C4_call_branch ctxBad 0 0 st0).2.2 (by decide) (by decide) (by decide)⟩

/-- C8: starting from any cache and empty ghost logs, every cache slot
index the interpreter accesses — the slots written by vertex loads and
the slots read by triangle draws — lies within [0, 32): a vertex load
writes v0 + i with v0 at most 15 and i at most 15, bounded by 30, and a
triangle draw reads byte / 10, bounded by 25. -/
theorem C8_cache_bounds (c : Ctx) (fuel : Nat) (dl : Int) (vc : VCache) :
    ∀ k : Nat,
      (k ∈ (resState (interpret_display_list c fuel dl ⟨vc, [], [], []⟩)).writes ∨
        k ∈ (resState (interpret_display_list c fuel dl ⟨vc, [], [], []⟩)).reads) →
      k < 32 := by
  intro k hk
  obtain ⟨hw, hr⟩ := (interpret_invariants c fuel dl ⟨vc, [], [], []⟩).2.2
    (by intro x hx; simp at hx) (by intro x hx; simp at hx)
  rcases hk with hk | hk
  · exact hw k hk
  · exact hr k hk

/-- Witness for C8 on ctxVertex: slot 1 is written during the run and
lies below 32. -/
theorem C8_cache_bounds_witness : (1 : Nat) < 32 :=
  C8_cache_bounds ctxVertex 2 0 vcZero 1 (Or.inl (by decide))

end Wafel
